import Mathlib

/-!
Verification of the two-tier cache provider
(micro-fleet-cache, src/app/RedisCacheProvider.ts).

The definitions below are a shallow embedding of the TypeScript source.
Stateful code becomes explicit state passing; fallible code returns
Except; machine integers are Nat/Int.  JavaScript strings are modelled
as lists of characters so that parsing and printing can be reasoned
about structurally; map-like objects become association lists.
-/

namespace MFCache

/-- JavaScript string contents, modelled as a list of characters. -/
abbrev JStr := List Char

/-- The PrimitiveType union from the source: string, number or boolean.
Numbers are modelled as integers (the repository only ever round-trips
integral numbers; floating point is outside the embedding). -/
inductive Prim where
  | pstr (s : JStr)
  | pnum (n : Int)
  | pbool (b : Bool)
deriving DecidableEq

/-- A value held in the local cache object.  vnull is the JS null
(planted by the constructor for the hash-mode sentinel); vother stands
for values produced by parsing composite JSON (arrays, objects,
non-integral numbers), whose exact shape no claim depends on. -/
inductive CVal where
  | vnull
  | vprim (p : Prim)
  | vother
deriving DecidableEq

/-- Association-list lookup for string-keyed JS objects. -/
def alookup {α : Type} : List (String × α) → String → Option α
  | [], _ => none
  | (k2, v) :: t, k => if k2 = k then some v else alookup t k

/-- Association-list write (obj[k] = v). -/
def aset {α : Type} : List (String × α) → String → α → List (String × α)
  | [], k, v => [(k, v)]
  | (k2, w) :: t, k, v => if k2 = k then (k, v) :: t else (k2, w) :: aset t k v

/-- Association-list removal (delete obj[k]). -/
def aerase {α : Type} (m : List (String × α)) (k : String) : List (String × α) :=
  m.filter (fun e => e.1 != k)

/-- Decimal digit to character. -/
def digitChar : Nat → Char
  | 0 => '0' | 1 => '1' | 2 => '2' | 3 => '3' | 4 => '4'
  | 5 => '5' | 6 => '6' | 7 => '7' | 8 => '8' | _ => '9'

/-- Is the character a decimal digit. -/
def isDigitChar (c : Char) : Bool := 48 ≤ c.toNat && c.toNat ≤ 57

/-- Character to decimal digit value. -/
def charDigit (c : Char) : Nat := c.toNat - 48

/-- Decimal printing of a natural number (the JS Number toString for
naturals). -/
def natToChars (n : Nat) : JStr :=
  if n = 0 then ['0'] else ((Nat.digits 10 n).map digitChar).reverse

/-- Decimal reading of a digit string (big-endian). -/
def charsToNat (cs : JStr) : Nat := Nat.ofDigits 10 ((cs.map charDigit).reverse)

/-- Decimal printing of an integer (the JS Number toString for
integers). -/
def intToChars : Int → JStr
  | .ofNat n => natToChars n
  | .negSucc m => '-' :: natToChars (m + 1)

/-- A well-formed JSON unsigned-integer literal: nonempty, all digits,
no leading zero except for the single digit 0. -/
def wfDigits : JStr → Bool
  | [] => false
  | c :: rest => (c != '0' || rest.isEmpty) && (c :: rest).all isDigitChar

/-- Reading of a JSON integer literal (optional minus sign). -/
def intChars? : JStr → Option Int
  | [] => none
  | c :: rest =>
    if c = '-' then
      if wfDigits rest then some (-(charsToNat rest : Int)) else none
    else if wfDigits (c :: rest) then some (charsToNat (c :: rest) : Int)
    else none

/-- JSON-insignificant whitespace. -/
def isWsChar (c : Char) : Bool :=
  (c == ' ') || (c == '\t') || (c == '\n') || (c == '\r')

/-- Strip JSON-insignificant whitespace from both ends. -/
def trimChars (s : JStr) : JStr :=
  ((s.dropWhile isWsChar).reverse.dropWhile isWsChar).reverse

/-- Result of the JSON.parse builtin, as far as the claims need it:
null, boolean and integer literals are tracked exactly; jother marks
any other input that can begin a valid JSON document (a quoted string,
an array, an object, a non-integral number), for which only the fact
that parsing did not throw matters to the claims. -/
inductive JsonScalar where
  | jnull
  | jbool (b : Bool)
  | jnum (n : Int)
  | jother
deriving DecidableEq

/-- Model of the JSON.parse builtin on a scalar input.  none models the
builtin throwing a parse error: that happens exactly when the trimmed
input is empty or cannot begin a JSON document (so every input this
model rejects is rejected by the builtin as well; inputs the builtin
rejects later, such as a malformed array, map conservatively to
jother, and no theorem below depends on their exact value).
The character 123 is the opening curly brace. -/
def jsonParse (s : JStr) : Option JsonScalar :=
  let t := trimChars s
  match intChars? t with
  | some n => some (.jnum n)
  | none =>
    if t = "null".data then some .jnull
    else if t = "true".data then some (.jbool true)
    else if t = "false".data then some (.jbool false)
    else
      match t with
      | [] => none
      | c :: _ =>
        if (c == '"') || (c == '[') || (c == Char.ofNat 123)
            || (c == '-') || isDigitChar c
        then some .jother else none

/-- Error raised by the JS runtime: typeError models accessing a
property of null/undefined, jsonError models JSON.parse throwing. -/
inductive JsErr where
  | typeError
  | jsonError
deriving DecidableEq

/-- CacheLevel.LOCAL = 1. -/
def LOCAL : Nat := 1
/-- CacheLevel.REMOTE = 2. -/
def REMOTE : Nat := 2
/-- CacheLevel.BOTH = 3. -/
def BOTH : Nat := 3

/-- _includeBit: (source AND target) == target. -/
def includeBit (source target : Nat) : Bool := source &&& target == target

/-- One key of the remote store: the stored scalar and its TTL
(seconds), if any. -/
structure RemoteEntry where
  val : JStr
  ttl : Option Nat
deriving DecidableEq

/-- The remote key/value store visible through the engine client. -/
abbrev RemoteStore := List (String × RemoteEntry)

/-- remote GET: null for a missing key. -/
def remoteGet (r : RemoteStore) (k : String) : Option JStr :=
  (alookup r k).map (·.val)

/-- remote SET (clears any TTL, as in the DEL+SET pipeline step). -/
def remoteSet (r : RemoteStore) (k : String) (v : JStr) : RemoteStore :=
  aset r k ⟨v, none⟩

/-- remote DEL of one key. -/
def remoteDel (r : RemoteStore) (k : String) : RemoteStore := aerase r k

/-- remote EXPIRE. -/
def remoteExpire (r : RemoteStore) (k : String) (d : Nat) : RemoteStore :=
  match alookup r k with
  | none => r
  | some e => aset r k ⟨e.val, some d⟩

/-- The state of one RedisCacheProvider instance.  Fields follow the
source: _localCache and _cacheExps are nullable because dispose sets
them to null; _engine is nullable because local-only construction
never assigns it.  pending models the set of scheduled, not yet fired
and not yet cancelled setTimeout callbacks as (handle, key, fire time
in ms); nowMs is the current clock used when scheduling.  subs is the
set of keys whose keyspace channel the subscription client is
subscribed to (the sync registration set). -/
structure ProviderState where
  name : String
  hasSingle : Bool
  hasCluster : Bool
  engine : Option RemoteStore
  engineSub : Bool
  subs : List String
  localCache : Option (List (String × CVal))
  cacheExps : Option (List (String × Nat))
  cacheLocks : List (String × List Nat)
  pending : List (Nat × String × Nat)
  nextTimer : Nat
  nowMs : Nat
deriving DecidableEq

/-- The constructor: plants the hash-mode sentinel in the local cache
and creates an engine only when cluster or single options are given.
The remote store an engine connects to is modelled as starting empty;
general theorems quantify over arbitrary states instead. -/
def mkProvider (name : String) (hasSingle hasCluster : Bool) : ProviderState :=
  { name := name
    hasSingle := hasSingle
    hasCluster := hasCluster
    engine := if hasCluster || hasSingle then some [] else none
    engineSub := false
    subs := []
    localCache := some [("@#!", CVal.vnull)]
    cacheExps := some []
    cacheLocks := []
    pending := []
    nextTimer := 0
    nowMs := 0 }

/-- _realKey: the instance-name namespacing of a user key. -/
def realKey (st : ProviderState) (key : String) : String :=
  st.name ++ "::" ++ key

/-- clearTimeout: removes a scheduled callback; a no-op on an undefined
handle (clearTimeout(undefined) does nothing). -/
def clearTimeoutM (pending : List (Nat × String × Nat)) :
    Option Nat → List (Nat × String × Nat)
  | none => pending
  | some h => pending.filter (fun e => e.1 != h)

/-- _deleteLocal: delete the local value, clear the timer currently
recorded for the key, drop the timer record.  Accessing the nulled
maps of a disposed instance raises TypeError (in the source the two
maps are nulled only together, by dispose, so one upfront check is
faithful). -/
def deleteLocal (st : ProviderState) (k : String) : Except JsErr ProviderState :=
  match st.localCache, st.cacheExps with
  | some lc, some ce =>
    .ok { st with
      localCache := some (aerase lc k)
      pending := clearTimeoutM st.pending (alookup ce k)
      cacheExps := some (aerase ce k) }
  | _, _ => .error .typeError

/-- _setLocalExp: for a positive duration, schedule a callback that
will run _deleteLocal after duration seconds and record its handle.
Note that the handle previously recorded for the key is overwritten
without clearTimeout, exactly as in the source. -/
def setLocalExp (st : ProviderState) (k : String) (duration : Nat) :
    Except JsErr ProviderState :=
  if duration > 0 then
    match st.cacheExps with
    | none => .error .typeError
    | some ce =>
      .ok { st with
        pending := st.pending ++ [(st.nextTimer, k, st.nowMs + duration * 1000)]
        cacheExps := some (aset ce k st.nextTimer)
        nextTimer := st.nextTimer + 1 }
  else .ok st

/-- A scheduled callback firing: if the handle is still pending, the
callback runs _deleteLocal on its key; a cancelled handle never
fires. -/
def fireTimer (st : ProviderState) (h : Nat) : Except JsErr ProviderState :=
  match st.pending.find? (fun e => e.1 == h) with
  | none => .ok st
  | some (_, k, _) =>
    deleteLocal { st with pending := st.pending.filter (fun e => e.1 != h) } k

/-- _defaultLevel: an explicit level wins; otherwise REMOTE with an
engine and LOCAL without. -/
def defaultLevel (st : ProviderState) : Option Nat → Nat
  | some l => l
  | none => if st.engine.isSome then REMOTE else LOCAL

/-- _syncOn: lazily brings up the subscription client and subscribes to
the keyspace channel of the key (the inbound handler itself is beyond
what the claims need). -/
def syncOn (st : ProviderState) (k : String) : Except JsErr ProviderState :=
  .ok { st with
    engineSub := true
    subs := if k ∈ st.subs then st.subs else st.subs ++ [k] }

/-- _syncOff: unsubscribes when a subscription client exists. -/
def syncOff (st : ProviderState) (k : String) : ProviderState :=
  if st.engineSub then { st with subs := st.subs.filter (fun x => x != k) } else st

/-- The wire form of a primitive written with SET: the redis client
sends the JS string coercion of the value. -/
def encodePrim : Prim → JStr
  | .pstr s => s
  | .pnum n => intToChars n
  | .pbool true => "true".data
  | .pbool false => "false".data

/-- Options record of the set operations. -/
structure CacheSetOpts where
  duration : Nat
  level : Option Nat
  isGlobal : Bool
deriving DecidableEq

/-- Options record of the get operations (parseType defaults to true
when absent). -/
structure CacheGetOpts where
  forceRemote : Bool
  parseType : Option Bool
  isGlobal : Bool
deriving DecidableEq

/-- setPrimitive: local write plus expiration schedule when the level
includes LOCAL; atomic DEL+SET+EXPIRE on the remote store when the
level includes REMOTE and an engine exists; syncOn when the level is
BOTH and an engine exists. -/
def setPrimitive (st : ProviderState) (key : String) (v : Prim)
    (opts : CacheSetOpts) : Except JsErr ProviderState := do
  let level := defaultLevel st opts.level
  let duration := opts.duration
  let k := if opts.isGlobal then key else realKey st key
  let st ←
    if includeBit level LOCAL then
      match st.localCache with
      | none => .error JsErr.typeError
      | some lc =>
        setLocalExp { st with localCache := some (aset lc k (.vprim v)) } k duration
    else .ok st
  let st :=
    if includeBit level REMOTE then
      match st.engine with
      | some r =>
        let r := remoteDel r k
        let r := remoteSet r k (encodePrim v)
        let r := if duration > 0 then remoteExpire r k duration else r
        { st with engine := some r }
      | none => st
    else st
  if st.engine.isSome && includeBit level BOTH then syncOn st k else .ok st

/-- _parsePrimitiveType: JSON.parse with the parse error caught, the
raw string being returned on failure. -/
def parsePrimitiveType (s : JStr) : CVal :=
  match jsonParse s with
  | none => .vprim (.pstr s)
  | some .jnull => .vnull
  | some (.jbool b) => .vprim (.pbool b)
  | some (.jnum n) => .vprim (.pnum n)
  | some .jother => .vother

/-- _fetchPrimitive: remote GET, optional type parsing, null mapping to
Nothing. -/
def fetchPrimitive (st : ProviderState) (k : String) (parseType : Bool) :
    Except JsErr (Option CVal) :=
  match st.engine with
  | none => .error .typeError
  | some r =>
    match remoteGet r k with
    | none => .ok none
    | some s =>
      let data := if parseType then parsePrimitiveType s else .vprim (.pstr s)
      if data = .vnull then .ok none else .ok (some data)

/-- getPrimitive: forced remote fetch, else local hit (the local value
is returned as is, wrapped in Just, so a null local value surfaces as
Present null), else remote fetch, else Nothing. -/
def getPrimitive (st : ProviderState) (key : String) (opts : CacheGetOpts) :
    Except JsErr (Option CVal) :=
  let k := if opts.isGlobal then key else realKey st key
  let parseType := opts.parseType.getD true
  if opts.forceRemote && st.engine.isSome then fetchPrimitive st k parseType
  else
    match st.localCache with
    | none => .error .typeError
    | some lc =>
      match alookup lc k with
      | some v => .ok (some v)
      | none =>
        if st.engine.isSome then fetchPrimitive st k parseType else .ok none

/-- The JS string coercion applied when a local cache value reaches
JSON.parse inside getArray (vother is unreachable through the
operations modelled here). -/
def cvalText : CVal → JStr
  | .vprim (.pstr s) => s
  | .vprim (.pnum n) => intToChars n
  | .vprim (.pbool true) => "true".data
  | .vprim (.pbool false) => "false".data
  | .vnull => "null".data
  | .vother => []

/-- getArray: fetch the stringified form (remote fetch always with
parseType false), then Maybe.map(JSON.parse).  The map of the Maybe
sum type applies JSON.parse to a present value, so a parse error
escapes and the returned promise rejects. -/
def getArray (st : ProviderState) (key : String) (opts : CacheGetOpts) :
    Except JsErr (Option JsonScalar) := do
  let k := if opts.isGlobal then key else realKey st key
  let stringified : Option CVal ←
    if opts.forceRemote && st.engine.isSome then fetchPrimitive st k false
    else
      match st.localCache with
      | none => .error JsErr.typeError
      | some lc =>
        match alookup lc k with
        | some v => .ok (some v)
        | none =>
          if st.engine.isSome then fetchPrimitive st k false else .ok (none : Option CVal)
  match stringified with
  | none => .ok none
  | some cv =>
    match jsonParse (cvalText cv) with
    | none => .error .jsonError
    | some j => .ok (some j)

/-- Escaping of quote and backslash inside a JSON string literal
(control-character escapes are not needed by any claim). -/
def jsonEscape (s : JStr) : JStr :=
  s.flatMap (fun c => if c = '"' || c = '\\' then ['\\', c] else [c])

/-- JSON.stringify of one primitive. -/
def stringifyPrim : Prim → JStr
  | .pstr s => '"' :: (jsonEscape s ++ ['"'])
  | .pnum n => intToChars n
  | .pbool true => "true".data
  | .pbool false => "false".data

/-- JSON.stringify of an array of primitives. -/
def stringifyArr (a : List Prim) : JStr :=
  '[' :: (List.intercalate [','] (a.map stringifyPrim) ++ [']'])

/-- setArray: delegates to setPrimitive with the JSON text. -/
def setArray (st : ProviderState) (key : String) (a : List Prim)
    (opts : CacheSetOpts) : Except JsErr ProviderState :=
  setPrimitive st key (.pstr (stringifyArr a)) opts

/-- delete on a non-pattern key: namespacing, _deleteLocal, _syncOff,
then this._engine.delAsync(key) with no engine guard, so a local-only
instance raises TypeError here. -/
def deleteKey (st : ProviderState) (key : String) (isGlobal : Bool) :
    Except JsErr ProviderState := do
  let k := if isGlobal then key else realKey st key
  let st ← deleteLocal st k
  let st := syncOff st k
  match st.engine with
  | none => .error JsErr.typeError
  | some r => .ok { st with engine := some (remoteDel r k) }

/-- dispose: quits the engine connections and nulls engine, local cache
and expiration map.  Scheduled timers are not cancelled and the lock
map is not touched, exactly as in the source. -/
def dispose (st : ProviderState) : ProviderState :=
  { st with
    engine := none
    engineSub := false
    localCache := none
    cacheExps := none }

/-- One response of the remote SCAN command. -/
structure ScanResult where
  cursor : String
  keys : List String
deriving DecidableEq

/-- Adding one key to the deduplicating Set accumulator (insertion
order preserved). -/
def addKey (s : List String) (k : String) : List String :=
  if k ∈ s then s else s ++ [k]

/-- The do-while scan loop of _deletePattern, consuming the successive
SCAN responses of the remote store: accumulate each batch into the
set, stop when the cursor returns to zero.  Returns the accumulated
set together with the keys of the final batch; none if the responses
run out before a terminating cursor (an impossible remote). -/
def scanLoop : List ScanResult → List String → Option (List String × List String)
  | [], _ => none
  | b :: rest, acc =>
    let acc2 := b.keys.foldl addKey acc
    if b.cursor = "0" then some (acc2, b.keys) else scanLoop rest acc2

/-- The remote half of _deletePattern: after the scan loop, DEL is
issued with the accumulated set as arguments, but only when the FINAL
batch was nonempty (the source tests result.keys.length, not the
size of the set).  Returns (accumulated set, DEL argument list if DEL
was issued). -/
def deletePatternRemote (batches : List ScanResult) :
    Option (List String × Option (List String)) :=
  (scanLoop batches []).map
    (fun p => (p.1, if p.2.length > 0 then some p.1 else none))

/-! ### The key lock queue (_cacheLocks and its five methods)

A lock is a promise; the model identifies each created promise by a
fresh number, records which have been resolved, and keeps the per-key
chain arrays exactly as the source maintains them (push at the front,
pop from the end). -/

/-- State of the lock subsystem: the per-key chains, the resolution log
(in resolution order), and the next fresh promise identifier. -/
structure LockState where
  cacheLocks : List (String × List Nat)
  resolved : List Nat
  nextId : Nat
deriving DecidableEq

/-- The empty lock subsystem. -/
def initLockState : LockState := ⟨[], [], 0⟩

/-- _peekLock: element 0 of the chain when the map has the key
(undefined, i.e. none, for an empty array or a missing key). -/
def peekLock (st : LockState) (k : String) : Option Nat :=
  match alookup st.cacheLocks k with
  | none => none
  | some chain => chain.head?

/-- _pushLock: create a fresh lock and unshift it at the front of the
chain, creating the chain if needed. -/
def pushLock (st : LockState) (k : String) : LockState :=
  let chain := (alookup st.cacheLocks k).getD []
  { st with
    cacheLocks := aset st.cacheLocks k (st.nextId :: chain)
    nextId := st.nextId + 1 }

/-- _popLock: Array.pop from the end of the chain, deleting the map
entry when the chain becomes empty.  none models the TypeError of
popping a missing chain. -/
def popLock (st : LockState) (k : String) :
    Option (Option Nat × LockState) :=
  match alookup st.cacheLocks k with
  | none => none
  | some chain =>
    let lock := chain.getLast?
    let rest := chain.dropLast
    let locks :=
      if rest.isEmpty then aerase st.cacheLocks k else aset st.cacheLocks k rest
    some (lock, { st with cacheLocks := locks })

/-- _lockKey: peek the current head, push my lock, and either hold the
lock at once (no previous head) or wait on the previous head.  The
first component is none for an immediate grant and some id for the
lock being awaited. -/
def lockKey (st : LockState) (k : String) : Option Nat × LockState :=
  (peekLock st k, pushLock st k)

/-- _releaseKey: pop and resolve (the lock && guard of the source skips
resolution of an undefined pop result). -/
def releaseKey (st : LockState) (k : String) : Option LockState :=
  match popLock st k with
  | none => none
  | some (lock, st2) =>
    some { st2 with
      resolved :=
        match lock with
        | some id => st2.resolved ++ [id]
        | none => st2.resolved }

/-- One event of a lock trace. -/
inductive LockOp where
  | acq (k : String)
  | rel (k : String)
deriving DecidableEq

/-- Run a trace of acquire/release events, collecting for each acquire
what it was told to wait on (none = granted immediately). -/
def runLockOps : LockState → List LockOp → Option (LockState × List (Option Nat))
  | st, [] => some (st, [])
  | st, .acq k :: t =>
    let g := (lockKey st k).1
    let st2 := (lockKey st k).2
    (runLockOps st2 t).map (fun p => (p.1, g :: p.2))
  | st, .rel k :: t =>
    match releaseKey st k with
    | none => none
    | some st2 => runLockOps st2 t

/-- Number of acquire events of a trace. -/
def numAcqs : List LockOp → Nat
  | [] => 0
  | .acq _ :: t => numAcqs t + 1
  | .rel _ :: t => numAcqs t

/-- Number of release events of a trace. -/
def numRels : List LockOp → Nat
  | [] => 0
  | .acq _ :: t => numRels t
  | .rel _ :: t => numRels t + 1

/-- Number of release events on one key. -/
def relCount (k : String) : List LockOp → Nat
  | [] => 0
  | .acq _ :: t => relCount k t
  | .rel k2 :: t => (if k2 = k then 1 else 0) + relCount k t

/-- The identifiers handed to the acquirers of one key, in acquisition
order, when identifiers start at n (each acquire event consumes one
identifier). -/
def acqIdsFrom (k : String) : List LockOp → Nat → List Nat
  | [], _ => []
  | .acq k2 :: t, n => (if k2 = k then [n] else []) ++ acqIdsFrom k t (n + 1)
  | .rel _ :: t, n => acqIdsFrom k t n

/-- The identifiers handed to the acquirers of one key over a whole
trace. -/
def acqIds (t : List LockOp) (k : String) : List Nat := acqIdsFrom k t 0

/-- The identifiers of the acquirers of a key whose lock has not yet
been resolved, in acquisition order. -/
def pendIds (t : List LockOp) (k : String) : List Nat :=
  (acqIds t k).drop (relCount k t)

/-- Pending-acquirer count per key, used to state balancedness. -/
def pendCount (t : List LockOp) : String → Nat :=
  fun k => (pendIds t k).length

/-- A trace is balanced from a given pending count when no release
outruns the acquires of its key. -/
def balAuxF : List LockOp → (String → Nat) → Bool
  | [], _ => true
  | .acq k :: t, p => balAuxF t (fun x => if x = k then p x + 1 else p x)
  | .rel k :: t, p =>
    (p k != 0) && balAuxF t (fun x => if x = k then p x - 1 else p x)

/-- A balanced trace: every release follows a matching acquire. -/
def balancedB (t : List LockOp) : Bool := balAuxF t (fun _ => 0)

/-- The expected grant of each acquire event: the identifier of the
most recent still-pending acquirer of the key at that moment (none
when there is none, i.e. the lock is granted immediately). -/
def grantsSpec : List LockOp → List LockOp → List (Option Nat)
  | _, [] => []
  | h, .acq k :: t => (pendIds h k).getLast? :: grantsSpec (h ++ [.acq k]) t
  | h, .rel k :: t => grantsSpec (h ++ [.rel k]) t

/-- The inductive invariant tying a lock state to the trace that
produced it: fresh identifiers count the acquires; the chain of a key
is exactly the reverse of its pending acquirer list (and the map entry
is absent when that list is empty); the resolution log restricted to a
key is exactly the first relCount acquirer identifiers of that key in
order; no identifier is resolved twice; every resolved identifier was
really created by an acquire; one resolution per release event. -/
def LockInv (h : List LockOp) (st : LockState) : Prop :=
  st.nextId = numAcqs h
  ∧ (∀ k, relCount k h ≤ (acqIds h k).length)
  ∧ (∀ k, alookup st.cacheLocks k =
      if pendIds h k = [] then none else some (pendIds h k).reverse)
  ∧ (∀ k, st.resolved.filter (fun x => decide (x ∈ acqIds h k)) =
      (acqIds h k).take (relCount k h))
  ∧ st.resolved.Nodup
  ∧ (∀ x ∈ st.resolved, ∃ k, x ∈ acqIds h k)
  ∧ st.resolved.length = numRels h

/-! ### Concrete scenarios and projections used by the theorems -/

/-- The value the local cache holds for a key after a run, as seen from
outside: none when the run failed or the cache is nulled; otherwise
the lookup result. -/
def localValAfter (e : Except JsErr ProviderState) (k : String) :
    Option (Option CVal) :=
  match e with
  | .ok st =>
    match st.localCache with
    | some lc => some (alookup lc k)
    | none => none
  | .error _ => none

/-- How many expiration callbacks are still scheduled for a key after a
run (none when the run failed). -/
def pendingForKey (e : Except JsErr ProviderState) (k : String) : Option Nat :=
  match e with
  | .ok st => some ((st.pending.filter (fun x => x.2.1 == k)).length)
  | .error _ => none

/-- Local-only instance: setPrimitive then a non-pattern delete
(scenario of claim C2). -/
def c2run : Except JsErr ProviderState := do
  let st := mkProvider "svc" false false
  let st ← setPrimitive st "K" (.pstr "hello".data) ⟨0, none, false⟩
  deleteKey st "K" false

/-- Local-only instance: two local sets of the same key with durations
1 s and 2 s (scenario of claim C3). -/
def c3run : Except JsErr ProviderState := do
  let st := mkProvider "svc" false false
  let st ← setPrimitive st "K" (.pstr "v1".data) ⟨1, some LOCAL, false⟩
  setPrimitive st "K" (.pstr "v2".data) ⟨2, some LOCAL, false⟩

/-- Remote-backed instance: store the string whose text is the JSON
numeral 123, then read it back remotely with type parsing (scenario of
claim C4). -/
def c4run : Except JsErr (Option CVal) := do
  let st ← setPrimitive (mkProvider "svc" true false) "K" (.pstr "123".data)
    ⟨0, none, false⟩
  getPrimitive st "K" ⟨true, some true, false⟩

/-- Local-only instance: store a scalar that is not valid JSON text,
then getArray it (scenario of claim C6). -/
def c6run : Except JsErr (Option JsonScalar) := do
  let st := mkProvider "svc" false false
  let st ← setPrimitive st "K" (.pstr "hello".data) ⟨0, some LOCAL, false⟩
  getArray st "K" ⟨false, none, false⟩

/-- Local-only instance: a local set with a 1 s TTL followed by
dispose (scenario of claim C7). -/
def c7run : Except JsErr ProviderState := do
  let st := mkProvider "svc" false false
  let st ← setPrimitive st "K" (.pstr "v".data) ⟨1, some LOCAL, false⟩
  .ok (dispose st)

/-- Local-only instance: a global set with no explicit level (scenario
of claim C8). -/
def c8run : Except JsErr ProviderState :=
  setPrimitive (mkProvider "svcA" false false) "G" (.pstr "x".data) ⟨0, none, true⟩

/-- A balanced trace on two keys used as the witness input of claim
C5. -/
def c5trace : List LockOp :=
  [.acq "A", .acq "A", .rel "A", .acq "B", .rel "A", .rel "B"]

/-- Whether a primitive survives the wire unchanged under type parsing:
numbers and booleans always do; a string does when its text is not
valid JSON. -/
def primSafe : Prim → Bool
  | .pstr s => (jsonParse s).isNone
  | .pnum _ => true
  | .pbool _ => true

/-! ### Association-list lemmas -/

theorem alookup_aset_self {α : Type} (m : List (String × α)) (k : String) (v : α) :
    alookup (aset m k v) k = some v := by
  induction m with
  | nil => simp [aset, alookup]
  | cons e t ih =>
    obtain ⟨k2, w⟩ := e
    by_cases h : k2 = k
    · simp [aset, h, alookup]
    · simp [aset, h, alookup, ih]

theorem alookup_aset_ne {α : Type} (m : List (String × α)) (k k2 : String) (v : α)
    (h : k2 ≠ k) : alookup (aset m k v) k2 = alookup m k2 := by
  have hk : ¬k = k2 := fun hh => h hh.symm
  induction m with
  | nil => simp [aset, alookup, hk]
  | cons e t ih =>
    obtain ⟨k3, w⟩ := e
    by_cases h3 : k3 = k
    · subst h3
      simp [aset, alookup, hk]
    · simp [aset, h3, alookup, ih]

theorem alookup_aerase_self {α : Type} (m : List (String × α)) (k : String) :
    alookup (aerase m k) k = none := by
  induction m with
  | nil => rfl
  | cons e t ih =>
    obtain ⟨k2, w⟩ := e
    by_cases h : k2 = k
    · simpa [aerase, List.filter_cons, h] using ih
    · simpa [aerase, List.filter_cons, bne_iff_ne, h, alookup] using ih

theorem alookup_aerase_ne {α : Type} (m : List (String × α)) (k k2 : String)
    (h : k2 ≠ k) : alookup (aerase m k) k2 = alookup m k2 := by
  have hk : ¬k = k2 := fun hh => h hh.symm
  induction m with
  | nil => rfl
  | cons e t ih =>
    obtain ⟨k3, w⟩ := e
    by_cases h3 : k3 = k
    · subst h3
      simpa [aerase, List.filter_cons, alookup, hk] using ih
    · by_cases h2 : k3 = k2
      · subst h2
        simp [aerase, List.filter_cons, bne_iff_ne, h3, alookup]
      · simpa [aerase, List.filter_cons, bne_iff_ne, h3, alookup, h2] using ih

/-! ### Decimal printing and JSON parsing lemmas -/

theorem isDigitChar_digitChar (d : Nat) : isDigitChar (digitChar d) = true := by
  unfold digitChar
  split <;> decide

theorem charDigit_digitChar (d : Nat) (hd : d < 10) :
    charDigit (digitChar d) = d := by
  interval_cases d <;> decide

theorem isWsChar_eq_false_of_digit (c : Char) (h : isDigitChar c = true) :
    isWsChar c = false := by
  simp only [isWsChar, Bool.or_eq_false_iff, beq_eq_false_iff_ne, ne_eq]
  refine ⟨⟨⟨?_, ?_⟩, ?_⟩, ?_⟩ <;> rintro rfl <;> exact absurd h (by decide)

theorem digitChar_ne_zero_char (d : Nat) (h0 : d ≠ 0) (hd : d < 10) :
    digitChar d ≠ '0' := by
  interval_cases d
  · exact absurd rfl h0
  all_goals decide

theorem natToChars_ne_nil (n : Nat) : natToChars n ≠ [] := by
  unfold natToChars
  by_cases h : n = 0
  · simp [h]
  · simp only [h, if_false, ne_eq, List.reverse_eq_nil_iff, List.map_eq_nil_iff]
    exact Nat.digits_ne_nil_iff_ne_zero.mpr h

theorem natToChars_all_digits (n : Nat) :
    ∀ c ∈ natToChars n, isDigitChar c = true := by
  intro c hc
  by_cases h : n = 0
  · subst h
    have hc0 : c = '0' := by simpa [natToChars] using hc
    subst hc0
    decide
  · unfold natToChars at hc
    simp only [h, if_false, List.mem_reverse, List.mem_map] at hc
    obtain ⟨d, _, rfl⟩ := hc
    exact isDigitChar_digitChar d

theorem wfDigits_natToChars (n : Nat) : wfDigits (natToChars n) = true := by
  by_cases h : n = 0
  · subst h
    decide
  · obtain ⟨c, t, hct⟩ := List.exists_cons_of_ne_nil (natToChars_ne_nil n)
    have hall : (natToChars n).all isDigitChar = true :=
      List.all_eq_true.mpr (fun c hc => natToChars_all_digits n c hc)
    have hhead : c ≠ '0' := by
      have h9 : (natToChars n).head? = some c := by rw [hct]; rfl
      unfold natToChars at h9
      simp only [h, if_false, List.head?_reverse, List.getLast?_map] at h9
      have hne : Nat.digits 10 n ≠ [] := Nat.digits_ne_nil_iff_ne_zero.mpr h
      rw [List.getLast?_eq_getLast _ hne] at h9
      have hlast := Nat.getLast_digit_ne_zero 10 h
      have hlt : (Nat.digits 10 n).getLast hne < 10 :=
        Nat.digits_lt_base (by norm_num) (List.getLast_mem hne)
      rw [Option.map_some'] at h9
      rw [Option.some.injEq] at h9
      subst h9
      exact digitChar_ne_zero_char _ hlast hlt
    rw [hct]
    rw [hct] at hall
    unfold wfDigits
    simp only [Bool.and_eq_true]
    refine ⟨?_, hall⟩
    simp [hhead]

theorem charsToNat_natToChars (n : Nat) : charsToNat (natToChars n) = n := by
  by_cases h : n = 0
  · subst h
    decide
  · unfold natToChars charsToNat
    simp only [h, if_false]
    rw [List.map_reverse, List.reverse_reverse, List.map_map]
    have : (Nat.digits 10 n).map (charDigit ∘ digitChar) = Nat.digits 10 n := by
      rw [List.map_congr_left (g := id), List.map_id]
      intro d hd
      exact charDigit_digitChar d (Nat.digits_lt_base (by norm_num) hd)
    rw [this, Nat.ofDigits_digits]

theorem intChars?_intToChars (n : Int) : intChars? (intToChars n) = some n := by
  cases n with
  | ofNat m =>
    obtain ⟨c, t, hct⟩ := List.exists_cons_of_ne_nil (natToChars_ne_nil m)
    have hdig : isDigitChar c = true := by
      apply natToChars_all_digits m
      rw [hct]; exact List.mem_cons_self _ _
    have hnr : c ≠ '-' := by
      rintro rfl
      exact absurd hdig (by decide)
    show intChars? (natToChars m) = some (Int.ofNat m)
    rw [hct]
    simp only [intChars?]
    rw [if_neg hnr, ← hct, if_pos (wfDigits_natToChars m), charsToNat_natToChars]
    norm_cast
  | negSucc m =>
    show intChars? ('-' :: natToChars (m + 1)) = some (Int.negSucc m)
    simp only [intChars?]
    rw [if_true, if_pos (wfDigits_natToChars (m + 1)), charsToNat_natToChars]
    rw [Int.negSucc_eq]
    push_cast
    ring_nf

theorem dropWhile_ws_eq_self (l : JStr) (h : ∀ c ∈ l, isWsChar c = false) :
    l.dropWhile isWsChar = l := by
  cases l with
  | nil => rfl
  | cons c t =>
    rw [List.dropWhile_cons, h c (List.mem_cons_self _ _)]
    simp

theorem trimChars_eq_self (l : JStr) (h : ∀ c ∈ l, isWsChar c = false) :
    trimChars l = l := by
  unfold trimChars
  rw [dropWhile_ws_eq_self l h]
  rw [dropWhile_ws_eq_self l.reverse (fun c hc => h c (List.mem_reverse.mp hc))]
  exact l.reverse_reverse

theorem intToChars_no_ws (n : Int) : ∀ c ∈ intToChars n, isWsChar c = false := by
  intro c hc
  cases n with
  | ofNat m =>
    exact isWsChar_eq_false_of_digit c (natToChars_all_digits m c hc)
  | negSucc m =>
    simp only [intToChars, List.mem_cons] at hc
    rcases hc with rfl | hc
    · decide
    · exact isWsChar_eq_false_of_digit c (natToChars_all_digits (m + 1) c hc)

theorem jsonParse_intToChars (n : Int) :
    jsonParse (intToChars n) = some (.jnum n) := by
  unfold jsonParse
  rw [trimChars_eq_self _ (intToChars_no_ws n)]
  simp only [intChars?_intToChars]

/-! ### Level-bit facts -/

theorem includeBit_LL : includeBit LOCAL LOCAL = true := rfl
theorem includeBit_LR : includeBit LOCAL REMOTE = false := rfl
theorem includeBit_LB : includeBit LOCAL BOTH = false := rfl
theorem includeBit_RL : includeBit REMOTE LOCAL = false := rfl
theorem includeBit_RR : includeBit REMOTE REMOTE = true := rfl
theorem includeBit_RB : includeBit REMOTE BOTH = false := rfl

/-- One step of the Except monad, for unfolding the do-blocks of the
embedding. -/
theorem except_bind_ok {ε α β : Type} (a : α) (f : α → Except ε β) :
    (Except.ok a : Except ε α) >>= f = f a := rfl

/-- The failing step of the Except monad. -/
theorem except_bind_error {ε α β : Type} (e : ε) (f : α → Except ε β) :
    (Except.error e : Except ε α) >>= f = Except.error e := rfl

/-- Type parsing undoes the wire encoding for every primitive that is
safe in the sense of primSafe. -/
theorem parsePrimitiveType_safe (v : Prim) (hv : primSafe v = true) :
    parsePrimitiveType (encodePrim v) = .vprim v := by
  cases v with
  | pstr s =>
    simp only [primSafe, Option.isNone_iff_eq_none] at hv
    simp [parsePrimitiveType, encodePrim, hv]
  | pnum n => simp [parsePrimitiveType, encodePrim, jsonParse_intToChars]
  | pbool b => cases b <;> decide

/-! ### Claim theorems -/

/-- C1 (code bug): in _deletePattern the final DEL is guarded by the
length of the LAST scan batch, not by the size of the accumulated set.
With the scan responses (cursor 5, keys [a]) then (cursor 0, keys []),
the loop accumulates the set containing a but no DEL is issued at all,
so the accumulated set is not deleted; with a single response
(cursor 0, keys [a]) the DEL does receive the accumulated set.  The
claim (and the sources own comment, Delete all of them) requires the
first run to delete the set as well. -/
theorem deletePattern_skips_del_on_empty_final_batch :
    deletePatternRemote [⟨"5", ["a"]⟩, ⟨"0", []⟩] = some (["a"], none)
    ∧ deletePatternRemote [⟨"0", ["a"]⟩] = some (["a"], some ["a"]) :=
  ⟨rfl, rfl⟩

/-- C2 (code bug): on a local-only instance, a non-pattern delete
reaches this._engine.delAsync(key) with no engine guard and raises
TypeError, so the sequence setPrimitive then delete fails instead of
completing with the key absent. -/
theorem delete_localOnly_throws : c2run = .error .typeError := rfl

/-- C3 (code bug): _setLocalExp overwrites the recorded timer handle
without clearTimeout, so after two local sets of the same key with
positive durations TWO expiration callbacks are pending (the claim
says exactly one), and when the first one fires (after d1 seconds,
handle 0) it removes the key, so the second value does not survive
past d1; the stale _deleteLocal also cancels the second timer. -/
theorem setLocal_duplicate_timers :
    pendingForKey c3run "svc::K" = some 2
    ∧ localValAfter (c3run.bind (fun st => fireTimer st 0)) "svc::K" = some none
    ∧ pendingForKey (c3run.bind (fun st => fireTimer st 0)) "svc::K" = some 0 :=
  ⟨rfl, rfl, rfl⟩

/-- C7 (code bug): dispose nulls the engine, the local cache and the
expiration map but does not touch the lock map and does not cancel
any scheduled timer; a timer scheduled before dispose is still
pending afterwards, and when it fires its _deleteLocal callback hits
the nulled local cache and raises TypeError instead of being
swallowed. -/
theorem dispose_leaves_timers_and_locks :
    (∀ st : ProviderState,
      (dispose st).cacheLocks = st.cacheLocks ∧ (dispose st).pending = st.pending)
    ∧ pendingForKey c7run "svc::K" = some 1
    ∧ c7run.bind (fun st => fireTimer st 0) = .error .typeError :=
  ⟨fun _ => ⟨rfl, rfl⟩, rfl, rfl⟩

/-- C4 counterexample: the string whose text is 123 is stored on the
wire as the bare characters 123 and comes back from getPrimitive with
parseType true as the NUMBER 123, not as the original string, so the
claimed round-trip fails for strings whose text is valid JSON. -/
theorem roundtrip_json_string_counterexample :
    c4run = .ok (some (.vprim (.pnum 123)))
    ∧ (some (CVal.vprim (.pnum 123)) : Option CVal) ≠
        some (.vprim (.pstr "123".data)) :=
  ⟨rfl, by decide⟩

/-- C4 (amended): after setPrimitive on an instance with a remote
client, a forced remote read with parseType false returns the string
form of the value for EVERY primitive (first conjunct, with no
restriction on the value), while a forced remote read with parseType
true returns the original value and type for the safe primitives:
numbers, booleans, and strings whose text is not valid JSON (second
conjunct; a string whose text is valid JSON is JSON-parsed instead,
see the counterexample). -/
theorem roundtrip_primitive_amended (st : ProviderState) (r : RemoteStore)
    (key : String) (he : st.engine = some r) :
    (∀ v : Prim, ∃ st2, setPrimitive st key v ⟨0, none, false⟩ = .ok st2
      ∧ getPrimitive st2 key ⟨true, some false, false⟩ =
          .ok (some (.vprim (.pstr (encodePrim v)))))
    ∧ (∀ v : Prim, primSafe v = true →
        ∃ st2, setPrimitive st key v ⟨0, none, false⟩ = .ok st2
          ∧ getPrimitive st2 key ⟨true, some true, false⟩ =
              .ok (some (.vprim v))) := by
  constructor
  · intro v
    refine ⟨{ st with engine := some (remoteSet (remoteDel r (realKey st key))
        (realKey st key) (encodePrim v)) }, ?_, ?_⟩
    · simp [setPrimitive, defaultLevel, he, includeBit_RL, includeBit_RR,
        includeBit_RB, except_bind_ok]
    · simp [getPrimitive, fetchPrimitive, remoteGet, remoteSet, realKey,
        alookup_aset_self]
  · intro v hv
    refine ⟨{ st with engine := some (remoteSet (remoteDel r (realKey st key))
        (realKey st key) (encodePrim v)) }, ?_, ?_⟩
    · simp [setPrimitive, defaultLevel, he, includeBit_RL, includeBit_RR,
        includeBit_RB, except_bind_ok]
    · simp [getPrimitive, fetchPrimitive, remoteGet, remoteSet, realKey,
        alookup_aset_self, parsePrimitiveType_safe v hv]

/-- C4 witness: the amended statement applied on a freshly constructed
remote-backed instance; its conclusion asserts the parseType false
conjunct for every primitive and the parseType true conjunct for
every safe primitive, such as the string hello. -/
theorem roundtrip_primitive_amended_witness :
    (mkProvider "svc" true false).engine = some []
    ∧ ((∀ v : Prim, ∃ st2,
          setPrimitive (mkProvider "svc" true false) "K" v ⟨0, none, false⟩ = .ok st2
          ∧ getPrimitive st2 "K" ⟨true, some false, false⟩ =
              .ok (some (.vprim (.pstr (encodePrim v)))))
      ∧ (∀ v : Prim, primSafe v = true →
          ∃ st2,
            setPrimitive (mkProvider "svc" true false) "K" v ⟨0, none, false⟩ = .ok st2
            ∧ getPrimitive st2 "K" ⟨true, some true, false⟩ =
                .ok (some (.vprim v)))) :=
  ⟨rfl, roundtrip_primitive_amended _ _ "K" rfl⟩

/-- C6 counterexample: a locally stored scalar that is not valid JSON
text makes getArray raise the JSON parse error (the promise rejects)
instead of returning Absent: the parse runs inside Maybe.map with no
catch. -/
theorem getArray_illformed_throws : c6run = .error .jsonError := rfl

/-- C6 (amended): decoding never throws for PRIMITIVE reads: an
ill-formed stored scalar comes back raw from getPrimitive with
parseType true, whether it sits in the remote tier or in the local
tier; but getArray on the same scalar propagates the parse error
rather than returning Absent. -/
theorem decode_illformed_amended (st st2 : ProviderState) (r : RemoteStore)
    (lc : List (String × CVal)) (k : String) (s : JStr) (e : RemoteEntry)
    (hp : jsonParse s = none)
    (he : st.engine = some r) (hk : alookup r k = some e) (hval : e.val = s)
    (hlc : st2.localCache = some lc)
    (hk2 : alookup lc k = some (.vprim (.pstr s))) :
    getPrimitive st k ⟨true, some true, true⟩ = .ok (some (.vprim (.pstr s)))
    ∧ getArray st k ⟨true, none, true⟩ = .error .jsonError
    ∧ getPrimitive st2 k ⟨false, none, true⟩ = .ok (some (.vprim (.pstr s)))
    ∧ getArray st2 k ⟨false, none, true⟩ = .error .jsonError := by
  have hparse : parsePrimitiveType s = .vprim (.pstr s) := by
    simp [parsePrimitiveType, hp]
  refine ⟨?_, ?_, ?_, ?_⟩
  · simp [getPrimitive, fetchPrimitive, he, remoteGet, hk, hval, hparse]
  · simp [getArray, fetchPrimitive, he, remoteGet, hk, hval, cvalText, hp,
      except_bind_ok]
  · simp [getPrimitive, hlc, hk2]
  · simp [getArray, hlc, hk2, cvalText, hp, except_bind_ok]

/-- C6 witness: the amended statement at the scalar hello, stored
remotely on one instance and locally on another. -/
theorem decode_illformed_amended_witness :
    jsonParse "hello".data = none
    ∧ (getPrimitive { mkProvider "svc" true false with
          engine := some [("K", ⟨"hello".data, none⟩)] } "K" ⟨true, some true, true⟩ =
        .ok (some (.vprim (.pstr "hello".data)))
      ∧ getArray { mkProvider "svc" true false with
          engine := some [("K", ⟨"hello".data, none⟩)] } "K" ⟨true, none, true⟩ =
        .error .jsonError
      ∧ getPrimitive { mkProvider "svc" false false with
          localCache := some [("K", .vprim (.pstr "hello".data))] } "K"
          ⟨false, none, true⟩ = .ok (some (.vprim (.pstr "hello".data)))
      ∧ getArray { mkProvider "svc" false false with
          localCache := some [("K", .vprim (.pstr "hello".data))] } "K"
          ⟨false, none, true⟩ = .error .jsonError) :=
  ⟨by decide,
   decode_illformed_amended _ _ _ _ "K" _ _ (by decide) rfl rfl rfl rfl rfl⟩

/-- C8 counterexample: on a local-only instance a global set with no
explicit level falls back to the LOCAL default and writes the local
tier even though the caller never opted in, refuting the claim that a
global operation never writes the local tier without an explicit
level. -/
theorem global_set_localOnly_writes_local :
    localValAfter c8run "G" = some (some (.vprim (.pstr "x".data))) := rfl

/-- C8 (amended): a global set never applies the name namespacing and,
on an instance that HAS a remote client, a global set with no level
targets only the remote tier: the resulting state is the input state
with just the remote store updated at the callers key verbatim (in
particular the local cache is untouched); without a remote client the
default level falls back to LOCAL and the local tier is written. -/
theorem global_set_with_engine (st : ProviderState) (r : RemoteStore)
    (key : String) (v : Prim) (he : st.engine = some r) :
    setPrimitive st key v ⟨0, none, true⟩ =
      .ok { st with engine := some (remoteSet (remoteDel r key) key (encodePrim v)) } := by
  simp [setPrimitive, defaultLevel, he, includeBit_RL, includeBit_RR, includeBit_RB,
    except_bind_ok]

/-- C8 witness: the amended statement on a freshly constructed
remote-backed instance. -/
theorem global_set_with_engine_witness :
    (mkProvider "svc" true false).engine = some []
    ∧ setPrimitive (mkProvider "svc" true false) "G" (.pbool true) ⟨0, none, true⟩ =
      .ok { mkProvider "svc" true false with
        engine := some (remoteSet (remoteDel [] "G") "G" (encodePrim (.pbool true))) } :=
  ⟨rfl, global_set_with_engine _ _ "G" _ rfl⟩

/-- C9 (confirmed): on every freshly constructed provider, the
hash-mode sentinel planted by the constructor is observable through
getPrimitive with isGlobal true as Present null (the local branch
wraps the stored null in Just). -/
theorem sentinel_present_null (name : String) (hasSingle hasCluster : Bool) :
    getPrimitive (mkProvider name hasSingle hasCluster) "@#!" ⟨false, none, true⟩ =
      .ok (some .vnull) := by
  simp [getPrimitive, mkProvider, alookup]

/-- C10 (confirmed): there is no shape guard on reads: after
setArray(k, a, level LOCAL), getPrimitive(k) returns Present of the
JSON text of the array, exactly what the local tier holds. -/
theorem getPrimitive_after_setArray (st : ProviderState)
    (lc : List (String × CVal)) (key : String) (a : List Prim)
    (hlc : st.localCache = some lc) :
    ∃ st2, setArray st key a ⟨0, some LOCAL, false⟩ = .ok st2
      ∧ getPrimitive st2 key ⟨false, none, false⟩ =
          .ok (some (.vprim (.pstr (stringifyArr a)))) := by
  refine ⟨{ st with localCache := some (aset lc (realKey st key)
      (.vprim (.pstr (stringifyArr a)))) }, ?_, ?_⟩
  · simp [setArray, setPrimitive, defaultLevel, hlc, setLocalExp,
      includeBit_LL, includeBit_LR, includeBit_LB, except_bind_ok]
  · simp [getPrimitive, realKey, alookup_aset_self]

/-- C10 witness: the shape-mismatched read on a freshly constructed
local-only instance and a two-element array. -/
theorem getPrimitive_after_setArray_witness :
    (mkProvider "svc" false false).localCache = some [("@#!", CVal.vnull)]
    ∧ ∃ st2, setArray (mkProvider "svc" false false) "K"
          [Prim.pnum 1, Prim.pbool true] ⟨0, some LOCAL, false⟩ = .ok st2
        ∧ getPrimitive st2 "K" ⟨false, none, false⟩ =
            .ok (some (.vprim (.pstr (stringifyArr [Prim.pnum 1, Prim.pbool true])))) :=
  ⟨rfl, getPrimitive_after_setArray _ _ "K" _ rfl⟩

/-! ### Lock trace lemmas -/

theorem numAcqs_append (t1 t2 : List LockOp) :
    numAcqs (t1 ++ t2) = numAcqs t1 + numAcqs t2 := by
  induction t1 with
  | nil => simp [numAcqs]
  | cons op t ih => cases op <;> simp [numAcqs, ih] <;> omega

theorem numRels_append (t1 t2 : List LockOp) :
    numRels (t1 ++ t2) = numRels t1 + numRels t2 := by
  induction t1 with
  | nil => simp [numRels]
  | cons op t ih => cases op <;> simp [numRels, ih] <;> omega

theorem relCount_append (k : String) (t1 t2 : List LockOp) :
    relCount k (t1 ++ t2) = relCount k t1 + relCount k t2 := by
  induction t1 with
  | nil => simp [relCount]
  | cons op t ih => cases op <;> simp [relCount, ih] <;> omega

theorem acqIdsFrom_append (k : String) (t1 t2 : List LockOp) (n : Nat) :
    acqIdsFrom k (t1 ++ t2) n =
      acqIdsFrom k t1 n ++ acqIdsFrom k t2 (n + numAcqs t1) := by
  induction t1 generalizing n with
  | nil => simp [acqIdsFrom, numAcqs]
  | cons op t ih =>
    cases op with
    | acq k2 =>
      show (if k2 = k then [n] else []) ++ acqIdsFrom k (t ++ t2) (n + 1) =
        ((if k2 = k then [n] else []) ++ acqIdsFrom k t (n + 1)) ++
          acqIdsFrom k t2 (n + (numAcqs t + 1))
      rw [ih (n + 1), List.append_assoc]
      have harith : n + 1 + numAcqs t = n + (numAcqs t + 1) := by omega
      rw [harith]
    | rel k2 =>
      show acqIdsFrom k (t ++ t2) n =
        acqIdsFrom k t n ++ acqIdsFrom k t2 (n + numAcqs t)
      exact ih n

theorem mem_acqIdsFrom_ge (k : String) (t : List LockOp) (n x : Nat)
    (hx : x ∈ acqIdsFrom k t n) : n ≤ x := by
  induction t generalizing n with
  | nil => simp [acqIdsFrom] at hx
  | cons op t ih =>
    cases op with
    | acq k2 =>
      simp only [acqIdsFrom, List.mem_append] at hx
      rcases hx with hx | hx
      · by_cases hk : k2 = k
        · simp [hk] at hx
          omega
        · simp [hk] at hx
      · have := ih (n + 1) hx
        omega
    | rel k2 => exact ih n hx

theorem mem_acqIdsFrom_lt (k : String) (t : List LockOp) (n x : Nat)
    (hx : x ∈ acqIdsFrom k t n) : x < n + numAcqs t := by
  induction t generalizing n with
  | nil => simp [acqIdsFrom] at hx
  | cons op t ih =>
    cases op with
    | acq k2 =>
      simp only [acqIdsFrom, List.mem_append] at hx
      simp only [numAcqs]
      rcases hx with hx | hx
      · by_cases hk : k2 = k
        · simp [hk] at hx
          omega
        · simp [hk] at hx
      · have := ih (n + 1) hx
        omega
    | rel k2 =>
      simp only [numAcqs]
      exact ih n hx

theorem acqIdsFrom_pairwise (k : String) (t : List LockOp) (n : Nat) :
    (acqIdsFrom k t n).Pairwise (· < ·) := by
  induction t generalizing n with
  | nil => simp [acqIdsFrom]
  | cons op t ih =>
    cases op with
    | acq k2 =>
      show List.Pairwise (· < ·)
        ((if k2 = k then [n] else []) ++ acqIdsFrom k t (n + 1))
      by_cases hk : k2 = k
      · rw [if_pos hk, List.singleton_append, List.pairwise_cons]
        exact ⟨fun x hx => Nat.lt_of_lt_of_le (Nat.lt_succ_self n)
          (mem_acqIdsFrom_ge k t (n + 1) x hx), ih (n + 1)⟩
      · rw [if_neg hk, List.nil_append]
        exact ih (n + 1)
    | rel k2 => exact ih n

theorem acqIds_nodup (t : List LockOp) (k : String) : (acqIds t k).Nodup :=
  (acqIdsFrom_pairwise k t 0).imp Nat.ne_of_lt

theorem mem_acqIdsFrom_disjoint (k k2 : String) (t : List LockOp) (n x : Nat)
    (h1 : x ∈ acqIdsFrom k t n) (h2 : x ∈ acqIdsFrom k2 t n) : k = k2 := by
  induction t generalizing n with
  | nil => simp [acqIdsFrom] at h1
  | cons op t ih =>
    cases op with
    | acq k3 =>
      simp only [acqIdsFrom, List.mem_append] at h1 h2
      rcases h1 with h1 | h1
      · have hk3 : k3 = k ∧ x = n := by
          by_cases hk : k3 = k
          · simp [hk] at h1
            exact ⟨hk, h1⟩
          · simp [hk] at h1
        rcases h2 with h2 | h2
        · have hk3b : k3 = k2 := by
            by_cases hk : k3 = k2
            · exact hk
            · simp [hk] at h2
          rw [← hk3.1, hk3b]
        · have := mem_acqIdsFrom_ge k2 t (n + 1) x h2
          omega
      · have hge := mem_acqIdsFrom_ge k t (n + 1) x h1
        rcases h2 with h2 | h2
        · by_cases hk : k3 = k2
          · simp [hk] at h2
            omega
          · simp [hk] at h2
        · exact ih (n + 1) h1 h2
    | rel k3 => exact ih n h1 h2

theorem acqIds_snoc_acq_self (h : List LockOp) (k : String) :
    acqIds (h ++ [.acq k]) k = acqIds h k ++ [numAcqs h] := by
  unfold acqIds
  rw [acqIdsFrom_append]
  simp [acqIdsFrom]

theorem acqIds_snoc_acq_ne (h : List LockOp) (k k2 : String) (hne : k2 ≠ k) :
    acqIds (h ++ [.acq k2]) k = acqIds h k := by
  unfold acqIds
  rw [acqIdsFrom_append]
  simp [acqIdsFrom, hne]

theorem acqIds_snoc_rel (h : List LockOp) (k k2 : String) :
    acqIds (h ++ [.rel k2]) k = acqIds h k := by
  unfold acqIds
  rw [acqIdsFrom_append]
  simp [acqIdsFrom]

theorem relCount_snoc_acq (h : List LockOp) (k k2 : String) :
    relCount k (h ++ [.acq k2]) = relCount k h := by
  rw [relCount_append]
  simp [relCount]

theorem relCount_snoc_rel_self (h : List LockOp) (k : String) :
    relCount k (h ++ [.rel k]) = relCount k h + 1 := by
  rw [relCount_append]
  simp [relCount]

theorem relCount_snoc_rel_ne (h : List LockOp) (k k2 : String) (hne : k2 ≠ k) :
    relCount k (h ++ [.rel k2]) = relCount k h := by
  rw [relCount_append]
  simp [relCount, hne]

theorem numAcqs_snoc_acq (h : List LockOp) (k : String) :
    numAcqs (h ++ [.acq k]) = numAcqs h + 1 := by
  rw [numAcqs_append]
  simp [numAcqs]

theorem numAcqs_snoc_rel (h : List LockOp) (k : String) :
    numAcqs (h ++ [.rel k]) = numAcqs h := by
  rw [numAcqs_append]
  simp [numAcqs]

theorem numRels_snoc_acq (h : List LockOp) (k : String) :
    numRels (h ++ [.acq k]) = numRels h := by
  rw [numRels_append]
  simp [numRels]

theorem numRels_snoc_rel (h : List LockOp) (k : String) :
    numRels (h ++ [.rel k]) = numRels h + 1 := by
  rw [numRels_append]
  simp [numRels]

theorem mem_acqIds_lt_numAcqs (t : List LockOp) (k : String) (x : Nat)
    (hx : x ∈ acqIds t k) : x < numAcqs t := by
  have := mem_acqIdsFrom_lt k t 0 x hx
  omega

theorem mem_acqIds_append_left (h t2 : List LockOp) (k : String) (x : Nat)
    (hx : x ∈ acqIds h k) : x ∈ acqIds (h ++ t2) k := by
  unfold acqIds at *
  rw [acqIdsFrom_append]
  exact List.mem_append_left _ hx

theorem acqIds_disjoint (t : List LockOp) (k k2 : String) (x : Nat)
    (h1 : x ∈ acqIds t k) (h2 : x ∈ acqIds t k2) : k = k2 :=
  mem_acqIdsFrom_disjoint k k2 t 0 x h1 h2

theorem pendIds_snoc_acq_self (h : List LockOp) (k : String)
    (hrc : relCount k h ≤ (acqIds h k).length) :
    pendIds (h ++ [.acq k]) k = pendIds h k ++ [numAcqs h] := by
  unfold pendIds
  rw [acqIds_snoc_acq_self, relCount_snoc_acq,
    List.drop_append_of_le_length hrc]

theorem pendIds_snoc_acq_ne (h : List LockOp) (k k2 : String) (hne : k2 ≠ k) :
    pendIds (h ++ [.acq k2]) k = pendIds h k := by
  unfold pendIds
  rw [acqIds_snoc_acq_ne h k k2 hne, relCount_snoc_acq]

theorem pendIds_snoc_rel_self (h : List LockOp) (k : String) :
    pendIds (h ++ [.rel k]) k = (pendIds h k).tail := by
  unfold pendIds
  rw [acqIds_snoc_rel, relCount_snoc_rel_self]
  rw [← List.drop_drop, List.drop_one]

theorem pendIds_snoc_rel_ne (h : List LockOp) (k k2 : String) (hne : k2 ≠ k) :
    pendIds (h ++ [.rel k2]) k = pendIds h k := by
  unfold pendIds
  rw [acqIds_snoc_rel, relCount_snoc_rel_ne h k k2 hne]

/-- An acquire preserves the lock invariant. -/
theorem lockInv_push (h : List LockOp) (st : LockState) (k : String)
    (hinv : LockInv h st) : LockInv (h ++ [.acq k]) (pushLock st k) := by
  obtain ⟨hnext, hrc, hchains, hfilter, hnodup, hmem, hlen⟩ := hinv
  refine ⟨?_, ?_, ?_, ?_, ?_, ?_, ?_⟩
  · simp only [pushLock]
    rw [numAcqs_snoc_acq, hnext]
  · intro k0
    by_cases hk : k0 = k
    · subst hk
      rw [relCount_snoc_acq, acqIds_snoc_acq_self]
      have := hrc k0
      simp only [List.length_append, List.length_singleton]
      omega
    · rw [relCount_snoc_acq, acqIds_snoc_acq_ne h k0 k (fun hh => hk hh.symm)]
      exact hrc k0
  · intro k0
    simp only [pushLock]
    by_cases hk : k0 = k
    · subst hk
      rw [alookup_aset_self, hchains k0, hnext,
        pendIds_snoc_acq_self h k0 (hrc k0)]
      by_cases hp : pendIds h k0 = []
      · simp [hp]
      · simp [hp, List.reverse_append]
    · rw [alookup_aset_ne _ _ _ _ hk, hchains k0,
        pendIds_snoc_acq_ne h k0 k (fun hh => hk hh.symm)]
  · intro k0
    simp only [pushLock]
    by_cases hk : k0 = k
    · subst hk
      rw [relCount_snoc_acq, acqIds_snoc_acq_self,
        List.take_append_of_le_length (hrc k0), ← hfilter k0]
      apply List.filter_congr
      intro x hx
      obtain ⟨k2, hk2⟩ := hmem x hx
      have hlt : x < numAcqs h := mem_acqIds_lt_numAcqs h k2 x hk2
      have hne : x ≠ numAcqs h := Nat.ne_of_lt hlt
      exact decide_eq_decide.mpr (by simp [List.mem_append, hne])
    · rw [relCount_snoc_acq, acqIds_snoc_acq_ne h k0 k (fun hh => hk hh.symm)]
      exact hfilter k0
  · exact hnodup
  · intro x hx
    obtain ⟨k2, hk2⟩ := hmem x hx
    exact ⟨k2, mem_acqIds_append_left h [.acq k] k2 x hk2⟩
  · simp only [pushLock]
    rw [numRels_snoc_acq]
    exact hlen

/-- A release on a key with at least one pending acquirer succeeds and
preserves the lock invariant. -/
theorem lockInv_release (h : List LockOp) (st : LockState) (k : String)
    (hinv : LockInv h st) (hp : pendIds h k ≠ []) :
    ∃ st2, releaseKey st k = some st2 ∧ LockInv (h ++ [.rel k]) st2 := by
  obtain ⟨hnext, hrc, hchains, hfilter, hnodup, hmem, hlen⟩ := hinv
  obtain ⟨p0, prest, hpend⟩ := List.exists_cons_of_ne_nil hp
  have hpd : (acqIds h k).drop (relCount k h) = p0 :: prest := hpend
  have hrclt : relCount k h < (acqIds h k).length := by
    by_contra hcon
    push_neg at hcon
    exact hp (List.drop_eq_nil_of_le hcon)
  have hp0mem : p0 ∈ acqIds h k :=
    List.drop_subset _ _ (by rw [hpd]; exact List.mem_cons_self _ _)
  have htake : (acqIds h k).take (relCount k h + 1) =
      (acqIds h k).take (relCount k h) ++ [p0] := by
    rw [List.take_add]
    congr 1
    rw [hpd]
    simp
  have hp0take : p0 ∉ (acqIds h k).take (relCount k h) := by
    have hnd : ((acqIds h k).take (relCount k h) ++
        (acqIds h k).drop (relCount k h)).Nodup := by
      rw [List.take_append_drop]
      exact acqIds_nodup h k
    have hdisj := (List.nodup_append.mp hnd).2.2
    intro hcon
    exact hdisj hcon (by rw [hpd]; exact List.mem_cons_self _ _)
  have hnotin : p0 ∉ st.resolved := by
    intro hcon
    have hfil : p0 ∈ st.resolved.filter (fun x => decide (x ∈ acqIds h k)) :=
      List.mem_filter.mpr ⟨hcon, by simpa using hp0mem⟩
    rw [hfilter k] at hfil
    exact hp0take hfil
  have hlook : alookup st.cacheLocks k = some (prest.reverse ++ [p0]) := by
    rw [hchains k, if_neg hp, hpend, List.reverse_cons]
  have hrel : releaseKey st k = some
      { cacheLocks := if prest.reverse.isEmpty then aerase st.cacheLocks k
          else aset st.cacheLocks k prest.reverse
        resolved := st.resolved ++ [p0]
        nextId := st.nextId } := by
    unfold releaseKey popLock
    rw [hlook]
    simp [List.getLast?_concat, List.dropLast_concat]
  refine ⟨_, hrel, ?_, ?_, ?_, ?_, ?_, ?_, ?_⟩
  · rw [numAcqs_snoc_rel]
    exact hnext
  · intro k0
    by_cases hk : k0 = k
    · subst hk
      rw [relCount_snoc_rel_self, acqIds_snoc_rel]
      omega
    · rw [relCount_snoc_rel_ne h k0 k (fun hh => hk hh.symm), acqIds_snoc_rel]
      exact hrc k0
  · intro k0
    by_cases hk : k0 = k
    · subst hk
      rw [pendIds_snoc_rel_self, hpend, List.tail_cons]
      cases prest with
      | nil => simp [alookup_aerase_self]
      | cons q qs => simp [alookup_aset_self]
    · rw [pendIds_snoc_rel_ne h k0 k (fun hh => hk hh.symm), ← hchains k0]
      by_cases hb : prest.reverse.isEmpty
      · simp only [hb, if_true]
        exact alookup_aerase_ne _ _ _ hk
      · simp only [hb, if_false]
        exact alookup_aset_ne _ _ _ _ hk
  · intro k0
    by_cases hk : k0 = k
    · subst hk
      rw [relCount_snoc_rel_self, acqIds_snoc_rel, htake,
        List.filter_append, hfilter k0]
      congr 1
      simp [hp0mem]
    · rw [relCount_snoc_rel_ne h k0 k (fun hh => hk hh.symm), acqIds_snoc_rel,
        List.filter_append, hfilter k0]
      have hnot : p0 ∉ acqIds h k0 := by
        intro hcon
        exact hk (acqIds_disjoint h k0 k p0 hcon hp0mem)
      simp [hnot]
  · rw [List.nodup_append]
    refine ⟨hnodup, List.nodup_singleton _, ?_⟩
    intro x hx hx2
    rw [List.mem_singleton] at hx2
    subst hx2
    exact hnotin hx
  · intro x hx
    rcases List.mem_append.mp hx with hx1 | hx1
    · obtain ⟨k2, hk2⟩ := hmem x hx1
      exact ⟨k2, by rw [acqIds_snoc_rel]; exact hk2⟩
    · rw [List.mem_singleton] at hx1
      subst hx1
      exact ⟨k, by rw [acqIds_snoc_rel]; exact hp0mem⟩
  · rw [numRels_snoc_rel]
    simp [hlen]

/-- Running a balanced suffix of a trace from a state satisfying the
invariant succeeds, preserves the invariant, and produces exactly the
specified grants. -/
theorem runLockOps_inv (ops : List LockOp) :
    ∀ (h : List LockOp) (st : LockState), LockInv h st →
      balAuxF ops (pendCount h) = true →
      ∃ stf gs, runLockOps st ops = some (stf, gs)
        ∧ LockInv (h ++ ops) stf ∧ gs = grantsSpec h ops := by
  induction ops with
  | nil =>
    intro h st hinv _
    exact ⟨st, [], rfl, by simpa using hinv, rfl⟩
  | cons op t ih =>
    intro h st hinv hbal
    have hcopy := hinv
    obtain ⟨hnext, hrc, hchains, hfilter, hnodup, hmem, hlen⟩ := hcopy
    cases op with
    | acq k =>
      have hinv2 := lockInv_push h st k hinv
      have hbal2 : balAuxF t (pendCount (h ++ [.acq k])) = true := by
        have heq : pendCount (h ++ [.acq k]) =
            fun x => if x = k then pendCount h x + 1 else pendCount h x := by
          funext x
          by_cases hx : x = k
          · subst hx
            rw [if_pos rfl]
            simp only [pendCount]
            rw [pendIds_snoc_acq_self h x (hrc x)]
            simp
          · rw [if_neg hx]
            simp only [pendCount]
            rw [pendIds_snoc_acq_ne h x k (fun hh => hx hh.symm)]
        rw [heq]
        simpa [balAuxF] using hbal
      obtain ⟨stf, gs, hrun, hinvf, hgs⟩ :=
        ih (h ++ [.acq k]) (pushLock st k) hinv2 hbal2
      have hpeek : peekLock st k = (pendIds h k).getLast? := by
        unfold peekLock
        rw [hchains k]
        by_cases hp : pendIds h k = []
        · simp [hp]
        · simp [hp]
      refine ⟨stf, (pendIds h k).getLast? :: gs, ?_, ?_, ?_⟩
      · show (runLockOps (pushLock st k) t).map
            (fun p => (p.1, peekLock st k :: p.2)) = _
        rw [hrun, hpeek]
        rfl
      · have hassoc : h ++ .acq k :: t = (h ++ [.acq k]) ++ t := by
          rw [List.append_assoc]
          rfl
        rw [hassoc]
        exact hinvf
      · show _ = (pendIds h k).getLast? :: grantsSpec (h ++ [.acq k]) t
        rw [hgs]
    | rel k =>
      have hbal1 : pendCount h k ≠ 0 ∧ balAuxF t
          (fun x => if x = k then pendCount h x - 1 else pendCount h x) = true := by
        simpa [balAuxF, Bool.and_eq_true, bne_iff_ne] using hbal
      have hp : pendIds h k ≠ [] := by
        intro hcon
        exact hbal1.1 (by simp [pendCount, hcon])
      obtain ⟨st2, hrel, hinv2⟩ := lockInv_release h st k hinv hp
      have hbal2 : balAuxF t (pendCount (h ++ [.rel k])) = true := by
        have heq : pendCount (h ++ [.rel k]) =
            fun x => if x = k then pendCount h x - 1 else pendCount h x := by
          funext x
          by_cases hx : x = k
          · subst hx
            rw [if_pos rfl]
            simp only [pendCount]
            rw [pendIds_snoc_rel_self]
            simp [List.length_tail]
          · rw [if_neg hx]
            simp only [pendCount]
            rw [pendIds_snoc_rel_ne h x k (fun hh => hx hh.symm)]
        rw [heq]
        exact hbal1.2
      obtain ⟨stf, gs, hrun, hinvf, hgs⟩ :=
        ih (h ++ [.rel k]) st2 hinv2 hbal2
      refine ⟨stf, gs, ?_, ?_, ?_⟩
      · show (match releaseKey st k with
            | none => none
            | some s => runLockOps s t) = some (stf, gs)
        rw [hrel]
        exact hrun
      · have hassoc : h ++ .rel k :: t = (h ++ [.rel k]) ++ t := by
          rw [List.append_assoc]
          rfl
        rw [hassoc]
        exact hinvf
      · show _ = grantsSpec (h ++ [.rel k]) t
        rw [hgs]

/-- C5 (confirmed): for every balanced trace of lock acquisitions and
releases, the run succeeds and afterwards: the lock-chain map entry of
each key is absent exactly when no acquirer is pending and otherwise
is the non-empty reverse of the pending acquirer list; every chain
entry is a signal genuinely created by an acquire (no nil entries); no
signal is ever completed twice (the resolution log has no duplicates);
each release completes exactly one pending signal (one log entry per
release event, and per key the resolved signals are exactly the first
relCount acquirer signals, resolved in acquisition order — first come
first served); and each acquire is granted immediately when nothing is
pending and otherwise waits on the signal of the immediately preceding
pending acquirer, so the N concurrent acquirers of a key are granted
one at a time in acquisition order. -/
theorem lock_chain_invariants (t : List LockOp) (hbal : balancedB t = true) :
    ∃ stf gs, runLockOps initLockState t = some (stf, gs)
      ∧ (∀ k, alookup stf.cacheLocks k =
          if pendIds t k = [] then none else some (pendIds t k).reverse)
      ∧ (∀ k chain, alookup stf.cacheLocks k = some chain →
          chain ≠ [] ∧ ∀ x ∈ chain, x ∈ acqIds t k)
      ∧ stf.resolved.Nodup
      ∧ stf.resolved.length = numRels t
      ∧ (∀ k, stf.resolved.filter (fun x => decide (x ∈ acqIds t k)) =
          (acqIds t k).take (relCount k t))
      ∧ gs = grantsSpec [] t := by
  have hinv0 : LockInv [] initLockState := by
    refine ⟨rfl, ?_, ?_, ?_, List.nodup_nil, ?_, rfl⟩
    · intro k
      simp [relCount, acqIds, acqIdsFrom]
    · intro k
      simp [initLockState, alookup, pendIds, acqIds, acqIdsFrom]
    · intro k
      simp [initLockState, relCount]
    · intro x hx
      simp [initLockState] at hx
  have hbal0 : balAuxF t (pendCount []) = true := by
    have hz : pendCount [] = fun _ => 0 := by
      funext x
      simp [pendCount, pendIds, acqIds, acqIdsFrom]
    rw [hz]
    exact hbal
  obtain ⟨stf, gs, hrun, hinvf, hgs⟩ := runLockOps_inv t [] initLockState hinv0 hbal0
  obtain ⟨hnext, hrc, hchains, hfilter, hnodup, hmem, hlen⟩ := hinvf
  simp only [List.nil_append] at hchains hfilter hlen
  refine ⟨stf, gs, hrun, hchains, ?_, hnodup, hlen, hfilter, hgs⟩
  intro k chain hchain
  rw [hchains k] at hchain
  by_cases hp : pendIds t k = []
  · rw [if_pos hp] at hchain
    exact absurd hchain (by simp)
  · rw [if_neg hp] at hchain
    have hcv : chain = (pendIds t k).reverse := by
      exact (Option.some.injEq _ _).mp hchain.symm
    subst hcv
    refine ⟨by simpa using hp, ?_⟩
    intro x hx
    rw [List.mem_reverse] at hx
    have hxd : x ∈ (acqIds t k).drop (relCount k t) := hx
    exact List.drop_subset _ _ hxd

/-- C5 witness: the invariants evaluated on the concrete balanced
trace acq A, acq A, rel A, acq B, rel A, rel B. -/
theorem lock_chain_invariants_witness :
    balancedB c5trace = true
    ∧ (∃ stf gs, runLockOps initLockState c5trace = some (stf, gs)
      ∧ (∀ k, alookup stf.cacheLocks k =
          if pendIds c5trace k = [] then none else some (pendIds c5trace k).reverse)
      ∧ (∀ k chain, alookup stf.cacheLocks k = some chain →
          chain ≠ [] ∧ ∀ x ∈ chain, x ∈ acqIds c5trace k)
      ∧ stf.resolved.Nodup
      ∧ stf.resolved.length = numRels c5trace
      ∧ (∀ k, stf.resolved.filter (fun x => decide (x ∈ acqIds c5trace k)) =
          (acqIds c5trace k).take (relCount k c5trace))
      ∧ gs = grantsSpec [] c5trace) :=
  ⟨by decide, lock_chain_invariants c5trace (by decide)⟩

end MFCache
